import Mathlib

/-!
Shallow embedding of the git-semver version derivation and formatting engine
(package `version`: `Version`, `Version.Format`, `Version.PreRelease`,
`Version.ReleaseCandidate`, `NewFromHead`).

Go strings are modelled as Lean `String` (byte slicing on the ASCII inputs
involved coincides with character slicing); Go `int`/`int64` are modelled as
`Int` with the explicit `2^63` bounds of `strconv` where the source checks
them; fallible operations return `Except`/`Option`; the out-of-range slice
`head.Hash[:8]` (a Go runtime panic, not an error return) is modelled by a
dedicated `BuildResult.panic` outcome.
-/

deriving instance DecidableEq for Except

namespace GitSemver

/-- DefaultPrefix that is recognized and ignored by the parser. -/
def DefaultPrefix : String := "v"

/-- Predefined format string `x.y.z-p+m`. -/
def FullFormat : String := "x.y.z-p+m"

/-- Go `strings.HasPrefix`. -/
def goHasPrefix (s p : String) : Bool :=
  p.data.isPrefixOf s.data

/-- Go `strings.TrimPrefix`. -/
def goTrimPrefix (s p : String) : String :=
  if goHasPrefix s p then String.mk (s.data.drop p.data.length) else s

/-- Go `strings.Contains(s, string(c))` for a one-character separator. -/
def goContains (s : String) (c : Char) : Bool :=
  s.data.any (fun d => d == c)

/-- Splitting a character list on every occurrence of `sep`
(`strings.Split` restricted to a one-character separator; the result is
always non-empty). -/
def splitCharList (sep : Char) : List Char → List (List Char)
  | [] => [[]]
  | c :: cs =>
    if c = sep then [] :: splitCharList sep cs
    else
      match splitCharList sep cs with
      | [] => [[c]]
      | h :: t => (c :: h) :: t

/-- Go `strings.Split(s, string(sep))` for a one-character separator. -/
def goSplit (s : String) (sep : Char) : List String :=
  (splitCharList sep s.data).map String.mk

/-- Decimal digits of a natural number, fuel-driven so that it is
structurally recursive and kernel-reducible (fuel `n+1` always suffices). -/
def natDigitsCore : Nat → Nat → List Char → List Char
  | 0, _, acc => acc
  | fuel + 1, n, acc =>
    if n < 10 then Char.ofNat (48 + n) :: acc
    else natDigitsCore fuel (n / 10) (Char.ofNat (48 + n % 10) :: acc)

/-- Go `strconv.FormatInt(i, 10)` (also the `%d` verb of `fmt.Sprintf`). -/
def FormatInt (i : Int) : String :=
  if i < 0 then String.mk ('-' :: natDigitsCore ((-i).toNat + 1) (-i).toNat [])
  else String.mk (natDigitsCore (i.toNat + 1) i.toNat [])

/-- Value of a non-empty all-digit character list, `none` otherwise. -/
def digitsToNat (l : List Char) : Option Nat :=
  if l.isEmpty then none
  else if l.all Char.isDigit then
    some (l.foldl (fun a c => a * 10 + (c.toNat - 48)) 0)
  else none

/-- Largest Go `int64` value, `2^63 - 1`. -/
def maxI64 : Int := 9223372036854775807

/-- Go `strconv.ParseInt(s, 10, 64)` (and `strconv.Atoi` on a 64-bit
platform): optional single sign, at least one ASCII digit, 64-bit range
check; any failure (syntax or range) is `none`. -/
def goParseInt64 (s : String) : Option Int :=
  match s.data with
  | '+' :: rest =>
    (digitsToNat rest).bind fun n =>
      if (n : Int) ≤ maxI64 then some (n : Int) else none
  | '-' :: rest =>
    (digitsToNat rest).bind fun n =>
      if (n : Int) ≤ maxI64 + 1 then some (-(n : Int)) else none
  | l =>
    (digitsToNat l).bind fun n =>
      if (n : Int) ≤ maxI64 then some (n : Int) else none

/-- Go `i++` on an `int64` value (two's-complement wrap at `maxI64`). -/
def goInc64 (i : Int) : Int :=
  if i = maxI64 then -(maxI64 + 1) else i + 1

/-- Version holds the parsed components of git describe. -/
structure Version where
  Prefix : String := ""
  Major : Int := 0
  Minor : Int := 0
  Patch : Int := 0
  preRelease : String := ""
  Commits : Int := 0
  Meta : String := ""
  releaseCandidate : Int := 0
  deriving DecidableEq

/-- Input fact-record produced by the repository inspector. -/
structure RepoHead where
  LastTag : String := ""
  Hash : String := ""
  CommitsSinceTag : Int := 0
  deriving DecidableEq

/-- The distinct error values produced by the engine (each constructor is
one `errors.New` / `fmt.Errorf` site of the source, carrying the raw
substring that the Go message interpolates). -/
inductive VError where
  /-- fmt.Errorf("invalid format: %s", format) -/
  | invalidFormat (format : String)
  /-- errors.New("pre-release does not match the release-candidate format (rc.1, other.1)") -/
  | invalidPreRelease
  /-- the error returned by strconv.ParseInt on the numeric suffix -/
  | parseIntErr (s : String)
  /-- fmt.Errorf("git version tag must contain 3 components: X.Y.Z: Got %s", version) -/
  | tagComponents (version : String)
  /-- fmt.Errorf("failed to parse major version: %v", err) -/
  | parseMajor (s : String)
  /-- fmt.Errorf("failed to parse minor version: %v", err) -/
  | parseMinor (s : String)
  /-- fmt.Errorf("failed to parse patch version: %v", err) -/
  | parsePatch (s : String)
  deriving DecidableEq

/-- PreRelease formats the pre-release version depending on the number of
commits since the last tag (`Version.PreRelease` of the source). -/
def Version.PreRelease (v : Version) : String :=
  if v.Commits = 0 then v.preRelease
  else if v.preRelease = "" then "dev." ++ FormatInt v.Commits
  else v.preRelease ++ ".dev." ++ FormatInt v.Commits

/-- The anchored regular expression match
of the source's release-candidate check: a string matches
^([a-z]+)\.([0-9]+)$ exactly when it decomposes as a non-empty run of
lowercase letters, a dot, and a non-empty run of digits; the two capture
groups are returned. -/
def rcParse (s : String) : Option (String × String) :=
  let letters := s.data.takeWhile fun c => 'a' ≤ c && c ≤ 'z'
  let rest := s.data.dropWhile fun c => 'a' ≤ c && c ≤ 'z'
  if letters.isEmpty then none
  else
    match rest with
    | '.' :: ds =>
      if ds.isEmpty then none
      else if ds.all Char.isDigit then some (String.mk letters, String.mk ds)
      else none
    | _ => none

/-- `Version.ReleaseCandidate` of the source.  The source's
`len(st) != 3` double-check is dead on a successful regex match and is
therefore absorbed by the `some` case of `rcParse`. -/
def Version.ReleaseCandidate (v : Version) : Except VError String :=
  if v.preRelease = "" then .ok "rc.1"
  else
    match rcParse v.preRelease with
    | none => .error .invalidPreRelease
    | some (label, digits) =>
      match goParseInt64 digits with
      | none => .error (.parseIntErr digits)
      | some i =>
        let i2 := if 0 < v.Commits then goInc64 i else i
        .ok (label ++ "." ++ FormatInt i2)

/-- `buffer.AppendString` of the source: append `sep` only when both the
buffer and the appended string are non-empty, then append the string. -/
def bufAppendString (b : List Char) (s : String) (sep : Char) : List Char :=
  if 0 < s.data.length ∧ 0 < b.length then b ++ sep :: s.data
  else b ++ s.data

/-- `buffer.AppendInt` of the source. -/
def bufAppendInt (b : List Char) (i : Int) (sep : Char) : List Char :=
  bufAppendString b (FormatInt i) sep

/-- Which optional capture groups of the format regular expression
(?P<major>x)(?P<minor>\.y)?(?P<patch>\.z)?(?P<pre>-p)?(?P<release_candidate>-r)?(?P<meta>\+m)?
are non-empty in the (mandatory-major) match. -/
structure FmtMatch where
  minor : Bool
  patch : Bool
  pre : Bool
  rc : Bool
  meta : Bool
  deriving DecidableEq

/-- Remainder of the character list after the first occurrence of x,
or `none` when there is no x.  The regular expression's mandatory first
group forces every match to start at the leftmost x. -/
def findX : List Char → Option (List Char)
  | [] => none
  | c :: cs => if c = 'x' then some cs else findX cs

/-- Greedy sequential consumption of the optional literal groups
.y .z -p -r +m after the matched x (RE2 preference order for this
regular expression). -/
def consumeTokens (l : List Char) : FmtMatch :=
  let p1 : Bool × List Char :=
    match l with
    | '.' :: 'y' :: t => (true, t)
    | _ => (false, l)
  let p2 : Bool × List Char :=
    match p1.2 with
    | '.' :: 'z' :: t => (true, t)
    | _ => (false, p1.2)
  let p3 : Bool × List Char :=
    match p2.2 with
    | '-' :: 'p' :: t => (true, t)
    | _ => (false, p2.2)
  let p4 : Bool × List Char :=
    match p3.2 with
    | '-' :: 'r' :: t => (true, t)
    | _ => (false, p3.2)
  let m5 : Bool :=
    match p4.2 with
    | '+' :: 'm' :: _ => true
    | _ => false
  ⟨p1.1, p2.1, p3.1, p4.1, m5⟩

/-- `re.FindStringSubmatch(format)` for the fixed format regular
expression: the leftmost match (anchored at the first x of the string)
with its greedy optional groups, or `none` when the string has no x. -/
def findMatch (format : String) : Option FmtMatch :=
  (findX format.data).map consumeTokens

/-- The rendering loop of `Version.Format` over the non-empty capture
groups of a match, in capture-group order. -/
def formatWithMatch (v : Version) (m : FmtMatch) : Except VError String :=
  let b0 := bufAppendInt [] v.Major '.'
  let b1 := if m.minor then bufAppendInt b0 v.Minor '.' else b0
  let b2 :=
    if m.patch then
      bufAppendInt b1
        (if 0 < v.Commits ∧ v.preRelease = "" then goInc64 v.Patch else v.Patch) '.'
    else b1
  let b3 := if m.pre then bufAppendString b2 v.PreRelease '-' else b2
  if m.rc then
    match v.ReleaseCandidate with
    | .error e => .error e
    | .ok rcs =>
      let b4 := bufAppendString b3 rcs '-'
      let b5 := if m.meta then bufAppendString b4 v.Meta '+' else b4
      .ok (v.Prefix ++ String.mk b5)
  else
    let b5 := if m.meta then bufAppendString b3 v.Meta '+' else b3
    .ok (v.Prefix ++ String.mk b5)

/-- `Version.Format` of the source. -/
def Version.Format (v : Version) (format : String) : Except VError String :=
  match findMatch format with
  | none => .error (.invalidFormat format)
  | some m => formatWithMatch v m

/-- Outcome of `NewFromHead`: a `Version`, an error return, or the Go
runtime panic raised by the out-of-range slice `head.Hash[:8]`. -/
inductive BuildResult where
  | ok (v : Version)
  | err (e : VError)
  | panic
  deriving DecidableEq

/-- The numeric core a working body yields: `parts[0]` of the split on
every - when the body contains one, the body itself otherwise. -/
def coreOf (body : String) : String :=
  if goContains body '-' then (goSplit body '-').getD 0 "" else body

/-- The pre-release a working body yields: `parts[1]` of the split on
every - when the body contains one, empty otherwise. -/
def preOf (body : String) : String :=
  if goContains body '-' then (goSplit body '-').getD 1 "" else ""

/-- Second half of `NewFromHead` (from the pre-release split on): split the
working body on every -, parse the numeric core, and assemble the
`Version`.  `pfx` and `mta` are the prefix and metadata computed by the
first half. -/
def finishBuild (pfx mta : String) (commits : Int) (body : String) : BuildResult :=
  let core := coreOf body
  let pre := preOf body
  if core = "" then
    .ok { Prefix := pfx, Major := 0, Minor := 0, Patch := 0,
          preRelease := pre, Commits := commits, Meta := mta }
  else
    let parts := goSplit core '.'
    if parts.length ≠ 3 then .err (.tagComponents core)
    else
      match goParseInt64 (parts.getD 0 "") with
      | none => .err (.parseMajor (parts.getD 0 ""))
      | some mj =>
        match goParseInt64 (parts.getD 1 "") with
        | none => .err (.parseMinor (parts.getD 1 ""))
        | some mn =>
          match goParseInt64 (parts.getD 2 "") with
          | none => .err (.parsePatch (parts.getD 2 ""))
          | some pa =>
            .ok { Prefix := pfx, Major := mj, Minor := mn, Patch := pa,
                  preRelease := pre, Commits := commits, Meta := mta }

/-- `NewFromHead` of the source: detect the v prefix, split explicit
metadata on every + (taking `parts[1]`), or derive metadata from the
first 8 bytes of the hash (panicking, as the Go slice does, when the hash
is shorter), then delegate to `finishBuild`. -/
def NewFromHead (head : RepoHead) : BuildResult :=
  let pfx := if goHasPrefix head.LastTag DefaultPrefix then DefaultPrefix else ""
  let version0 := goTrimPrefix head.LastTag pfx
  if goContains version0 '+' then
    let parts := goSplit version0 '+'
    finishBuild pfx (parts.getD 1 "") head.CommitsSinceTag (parts.getD 0 "")
  else if 0 < head.CommitsSinceTag then
    if head.Hash.length < 8 then .panic
    else finishBuild pfx (String.mk (head.Hash.data.take 8))
           head.CommitsSinceTag version0
  else finishBuild pfx "" head.CommitsSinceTag version0

/-- Detected tag prefix: `"v"` when the last tag starts with it. -/
def prefixValue (head : RepoHead) : String :=
  if goHasPrefix head.LastTag DefaultPrefix then DefaultPrefix else ""

/-- The tag name with the detected prefix stripped (`version` right after
the `TrimPrefix` line of `NewFromHead`). -/
def tagBody (head : RepoHead) : String :=
  goTrimPrefix head.LastTag (prefixValue head)

/-- The working body after the metadata split (`version` right after the
+-handling block of `NewFromHead`). -/
def workingBody (head : RepoHead) : String :=
  if goContains (tagBody head) '+' then (goSplit (tagBody head) '+').getD 0 ""
  else tagBody head

/-- The numeric core after the pre-release split (`version` right after
the --handling block of `NewFromHead`). -/
def numericCore (head : RepoHead) : String :=
  coreOf (workingBody head)

/-- The metadata value `NewFromHead` stores when it does not panic. -/
def metaValue (head : RepoHead) : String :=
  if goContains (tagBody head) '+' then (goSplit (tagBody head) '+').getD 1 ""
  else if 0 < head.CommitsSinceTag then String.mk (head.Hash.data.take 8)
  else ""

/-- The pre-release value `NewFromHead` stores when it does not panic. -/
def preReleaseValue (head : RepoHead) : String :=
  preOf (workingBody head)

/-- Whether a non-empty numeric core is well-formed: exactly three
dot-separated components, each accepted by `strconv.Atoi`. -/
def validCore (core : String) : Bool :=
  let parts := goSplit core '.'
  parts.length = 3 && (goParseInt64 (parts.getD 0 "")).isSome
    && (goParseInt64 (parts.getD 1 "")).isSome
    && (goParseInt64 (parts.getD 2 "")).isSome

/-- The error `NewFromHead` reports for a malformed non-empty numeric
core: wrong component count, or the first component that fails to parse
(meaningful whenever `validCore core = false`). -/
def coreError (core : String) : VError :=
  let parts := goSplit core '.'
  if parts.length ≠ 3 then .tagComponents core
  else if (goParseInt64 (parts.getD 0 "")).isSome = false then
    .parseMajor (parts.getD 0 "")
  else if (goParseInt64 (parts.getD 1 "")).isSome = false then
    .parseMinor (parts.getD 1 "")
  else .parsePatch (parts.getD 2 "")

/-! Concrete inputs used by the claim checks below. -/

/-- The head of the spec's third testable property. -/
def headC8 : RepoHead :=
  { LastTag := "1.0.0", Hash := "abcdef1234567890", CommitsSinceTag := 5 }

/-- The Version that `NewFromHead` derives from `headC8`. -/
def vC8 : Version :=
  { Prefix := "", Major := 1, Minor := 0, Patch := 0, preRelease := "",
    Commits := 5, Meta := "abcdef12", releaseCandidate := 0 }

/-- The all-default Version. -/
def vZero : Version := {}

/-- A Version whose pre-release has no numeric suffix. -/
def vBeta : Version := { preRelease := "beta" }

/-- A Version tagged exactly at pre-release rc.1. -/
def vW4 : Version := { preRelease := "rc.1", Commits := 0 }

/-- A Version one commit past pre-release rc.1. -/
def vW5 : Version := { preRelease := "rc.1", Commits := 1 }

/-- A head whose tag embeds two + separators. -/
def headW2 : RepoHead :=
  { LastTag := "1.2.3+a+b", Hash := "0123456789abcdef", CommitsSinceTag := 0 }

/-- The Version that `NewFromHead` derives from `headW2`. -/
def vW2 : Version :=
  { Prefix := "", Major := 1, Minor := 2, Patch := 3, preRelease := "",
    Commits := 0, Meta := "a", releaseCandidate := 0 }

/-- A head whose tag has only two numeric components. -/
def headW6 : RepoHead :=
  { LastTag := "v1.2", Hash := "0123456789abcdef", CommitsSinceTag := 0 }

/-- A head with no tag at all. -/
def headW7 : RepoHead :=
  { LastTag := "", Hash := "0123456789abcdef", CommitsSinceTag := 0 }

/-- A head tagged at the largest int64 patch level, one commit later. -/
def headMax : RepoHead :=
  { LastTag := "1.2.9223372036854775807", Hash := "0123456789abcdef",
    CommitsSinceTag := 1 }

/-- The Version that `NewFromHead` derives from `headMax`. -/
def vMax : Version :=
  { Prefix := "", Major := 1, Minor := 2, Patch := 9223372036854775807,
    preRelease := "", Commits := 1, Meta := "01234567", releaseCandidate := 0 }

/-! Helper lemmas about the embedded string primitives. -/

theorem natDigitsCore_length_le (fuel : Nat) :
    ∀ (n : Nat) (acc : List Char), acc.length ≤ (natDigitsCore fuel n acc).length := by
  induction fuel with
  | zero => intro n acc; simp [natDigitsCore]
  | succ f ih =>
    intro n acc
    simp only [natDigitsCore]
    split
    · simp
    · exact le_trans (by simp) (ih (n / 10) (Char.ofNat (48 + n % 10) :: acc))

theorem natDigitsCore_ne_nil (fuel n : Nat) (acc : List Char) :
    natDigitsCore (fuel + 1) n acc ≠ [] := by
  simp only [natDigitsCore]
  split
  · simp
  · intro h
    have h2 := natDigitsCore_length_le fuel (n / 10) (Char.ofNat (48 + n % 10) :: acc)
    rw [h] at h2
    simp at h2

theorem FormatInt_data_ne_nil (i : Int) : (FormatInt i).data ≠ [] := by
  unfold FormatInt
  split
  · simp
  · exact natDigitsCore_ne_nil _ _ _

theorem bufAppendString_nil_left (s : String) (c : Char) :
    bufAppendString [] s c = s.data := by
  simp [bufAppendString]

theorem bufAppendString_suffix (b : List Char) (s : String) (c : Char) :
    ∃ t, bufAppendString b s c = b ++ t := by
  unfold bufAppendString
  split
  · exact ⟨_, rfl⟩
  · exact ⟨_, rfl⟩

theorem bufAppendString_of_ne (b : List Char) (s : String) (c : Char)
    (hb : b ≠ []) (hs : s.data ≠ []) :
    bufAppendString b s c = b ++ c :: s.data := by
  unfold bufAppendString
  rw [if_pos ⟨List.length_pos.mpr hs, List.length_pos.mpr hb⟩]

theorem bufAppendInt_nil_left (i : Int) (c : Char) :
    bufAppendInt [] i c = (FormatInt i).data := by
  simp [bufAppendInt, bufAppendString_nil_left]

theorem bufAppendInt_of_ne (b : List Char) (i : Int) (c : Char) (hb : b ≠ []) :
    bufAppendInt b i c = b ++ c :: (FormatInt i).data :=
  bufAppendString_of_ne b (FormatInt i) c hb (FormatInt_data_ne_nil i)

theorem splitCharList_ne_nil (sep : Char) (l : List Char) :
    splitCharList sep l ≠ [] := by
  cases l with
  | nil => simp [splitCharList]
  | cons c cs =>
    simp only [splitCharList]
    split
    · simp
    · split
      · simp
      · simp

theorem splitCharList_getD_zero (sep : Char) (l : List Char) :
    (splitCharList sep l).getD 0 [] = l.takeWhile fun c => c != sep := by
  induction l with
  | nil => simp [splitCharList]
  | cons c cs ih =>
    simp only [splitCharList]
    by_cases h : c = sep
    · simp [h, List.takeWhile_cons]
    · rw [if_neg h]
      cases hs : splitCharList sep cs with
      | nil => exact absurd hs (splitCharList_ne_nil sep cs)
      | cons hd tl =>
        rw [hs] at ih
        simp only [List.getD_cons_zero] at ih
        simp [List.takeWhile_cons, h, ← ih]

theorem splitCharList_getD_one (sep : Char) (l : List Char) :
    (splitCharList sep l).getD 1 [] =
      ((l.dropWhile fun c => c != sep).tail).takeWhile fun c => c != sep := by
  induction l with
  | nil => simp [splitCharList]
  | cons c cs ih =>
    simp only [splitCharList]
    by_cases h : c = sep
    · rw [if_pos h]
      simp only [List.getD_cons_succ]
      rw [splitCharList_getD_zero]
      simp [List.dropWhile_cons, h]
    · rw [if_neg h]
      cases hs : splitCharList sep cs with
      | nil => exact absurd hs (splitCharList_ne_nil sep cs)
      | cons hd tl =>
        rw [hs] at ih
        simp only [List.getD_cons_succ] at ih ⊢
        simp [List.dropWhile_cons, h, ← ih]

theorem map_mk_getD (L : List (List Char)) (i : Nat) :
    (L.map String.mk).getD i "" = String.mk (L.getD i []) := by
  induction L generalizing i with
  | nil => simp [List.getD]
  | cons h t ih =>
    cases i with
    | zero => simp
    | succ j => simp only [List.map_cons, List.getD_cons_succ]; exact ih j

theorem goSplit_getD_zero (s : String) (sep : Char) :
    (goSplit s sep).getD 0 "" = String.mk (s.data.takeWhile fun c => c != sep) := by
  rw [goSplit, map_mk_getD, splitCharList_getD_zero]

theorem goSplit_getD_one (s : String) (sep : Char) :
    (goSplit s sep).getD 1 "" =
      String.mk (((s.data.dropWhile fun c => c != sep).tail).takeWhile fun c => c != sep) := by
  rw [goSplit, map_mk_getD, splitCharList_getD_one]

theorem findX_eq_none_iff (l : List Char) :
    findX l = none ↔ (l.any fun d => d == 'x') = false := by
  induction l with
  | nil => simp [findX]
  | cons c cs ih =>
    simp only [findX, List.any_cons]
    by_cases h : c = 'x'
    · simp [h]
    · simp [h, ih]

theorem findMatch_eq_none_iff (fmt : String) :
    findMatch fmt = none ↔ goContains fmt 'x' = false := by
  rw [findMatch, goContains, Option.map_eq_none']
  exact findX_eq_none_iff fmt.data

theorem data_empty_str : ("" : String).data = [] := rfl

theorem data_dot_str : ("." : String).data = ['.'] := rfl

theorem data_mk_list (l : List Char) : (String.mk l).data = l := rfl

/-! Helper lemmas about the formatter. -/

theorem ReleaseCandidate_ne_invalidFormat (v : Version) (f : String) :
    v.ReleaseCandidate ≠ .error (.invalidFormat f) := by
  unfold Version.ReleaseCandidate
  split
  · simp
  · split
    · simp
    · split
      · simp
      · simp

theorem formatWithMatch_rc_false_ok (v : Version) (m : FmtMatch) (h : m.rc = false) :
    ∃ s, formatWithMatch v m = .ok s :=
  ⟨_, by unfold formatWithMatch; rw [h]; rfl⟩

theorem formatWithMatch_ne_invalidFormat (v : Version) (m : FmtMatch) (f : String) :
    formatWithMatch v m ≠ .error (.invalidFormat f) := by
  intro hcontra
  simp only [formatWithMatch] at hcontra
  by_cases hrc : m.rc = true
  · rw [if_pos hrc] at hcontra
    split at hcontra
    · rename_i e heq
      rw [Except.error.injEq] at hcontra
      rw [hcontra] at heq
      exact ReleaseCandidate_ne_invalidFormat v f heq
    · exact absurd hcontra (by simp)
  · rw [if_neg hrc] at hcontra
    exact absurd hcontra (by simp)

theorem formatWithMatch_patch (v : Version) (m : FmtMatch) (hp : m.patch = true)
    (s : String) (hs : formatWithMatch v m = .ok s) :
    ∃ tail : String,
      s = v.Prefix ++ FormatInt v.Major
        ++ (if m.minor then "." ++ FormatInt v.Minor else "")
        ++ "." ++ FormatInt (if 0 < v.Commits ∧ v.preRelease = "" then goInc64 v.Patch else v.Patch)
        ++ tail := by
  have hb0 : bufAppendInt [] v.Major '.' = (FormatInt v.Major).data :=
    bufAppendInt_nil_left _ _
  have hb0ne : bufAppendInt [] v.Major '.' ≠ [] := by
    rw [hb0]; exact FormatInt_data_ne_nil _
  simp only [formatWithMatch, hp, if_true] at hs
  set P : Int := if 0 < v.Commits ∧ v.preRelease = "" then goInc64 v.Patch else v.Patch with hP
  set b0 : List Char := bufAppendInt [] v.Major '.' with hb0d
  set b1 : List Char := if m.minor = true then bufAppendInt b0 v.Minor '.' else b0 with hb1d
  set b2 : List Char := bufAppendInt b1 P '.' with hb2d
  set b3 : List Char := if m.pre = true then bufAppendString b2 v.PreRelease '-' else b2 with hb3d
  have hb1 : b1 = (FormatInt v.Major).data
      ++ (if m.minor then "." ++ FormatInt v.Minor else "").data := by
    rw [hb1d]
    by_cases hm : m.minor = true
    · rw [if_pos hm, if_pos hm, bufAppendInt_of_ne b0 v.Minor '.' hb0ne, hb0,
        String.data_append, data_dot_str]
      rfl
    · rw [if_neg hm, if_neg hm, hb0, data_empty_str, List.append_nil]
  have hb1ne : b1 ≠ [] := by
    rw [hb1]
    intro h
    rw [List.append_eq_nil] at h
    exact FormatInt_data_ne_nil v.Major h.1
  have hb2 : b2 = b1 ++ '.' :: (FormatInt P).data := by
    rw [hb2d]; exact bufAppendInt_of_ne b1 P '.' hb1ne
  have hb3 : ∃ t, b3 = b2 ++ t := by
    rw [hb3d]
    by_cases hm : m.pre = true
    · rw [if_pos hm]; exact bufAppendString_suffix _ _ _
    · rw [if_neg hm]; exact ⟨[], (List.append_nil _).symm⟩
  obtain ⟨t3, hb3e⟩ := hb3
  have key : ∃ T : List Char, s = v.Prefix ++ String.mk (b3 ++ T) := by
    by_cases hrc : m.rc = true
    · rw [if_pos hrc] at hs
      split at hs
      · cases hs
      · rename_i rcs heq
        by_cases hmeta : m.meta = true
        · rw [if_pos hmeta] at hs
          obtain ⟨t4, ht4⟩ := bufAppendString_suffix b3 rcs '-'
          obtain ⟨t5, ht5⟩ := bufAppendString_suffix (bufAppendString b3 rcs '-') v.Meta '+'
          rw [Except.ok.injEq] at hs
          exact ⟨t4 ++ t5, by rw [← hs, ht5, ht4, List.append_assoc]⟩
        · rw [if_neg hmeta] at hs
          obtain ⟨t4, ht4⟩ := bufAppendString_suffix b3 rcs '-'
          rw [Except.ok.injEq] at hs
          exact ⟨t4, by rw [← hs, ht4]⟩
    · rw [if_neg hrc] at hs
      by_cases hmeta : m.meta = true
      · rw [if_pos hmeta] at hs
        obtain ⟨t5, ht5⟩ := bufAppendString_suffix b3 v.Meta '+'
        rw [Except.ok.injEq] at hs
        exact ⟨t5, by rw [← hs, ht5]⟩
      · rw [if_neg hmeta] at hs
        rw [Except.ok.injEq] at hs
        exact ⟨[], by rw [← hs, List.append_nil]⟩
  obtain ⟨T, hT⟩ := key
  refine ⟨String.mk (t3 ++ T), ?_⟩
  rw [hT, hb3e]
  apply String.ext
  simp only [String.data_append, data_mk_list, data_dot_str]
  rw [hb2, hb1]
  simp [List.append_assoc]

/-! Helper lemmas about the builder. -/

theorem finishBuild_ok_fields (pfx mta : String) (commits : Int) (body : String)
    (v : Version) (h : finishBuild pfx mta commits body = .ok v) :
    v.Prefix = pfx ∧ v.Meta = mta ∧ v.Commits = commits ∧ v.preRelease = preOf body := by
  simp only [finishBuild] at h
  split at h
  · rw [BuildResult.ok.injEq] at h
    subst h
    exact ⟨rfl, rfl, rfl, rfl⟩
  · split at h
    · cases h
    · split at h
      · cases h
      · split at h
        · cases h
        · split at h
          · cases h
          · rw [BuildResult.ok.injEq] at h
            subst h
            exact ⟨rfl, rfl, rfl, rfl⟩

theorem finishBuild_empty (pfx mta : String) (commits : Int) (body : String)
    (h : coreOf body = "") :
    finishBuild pfx mta commits body =
      .ok { Prefix := pfx, Major := 0, Minor := 0, Patch := 0,
            preRelease := preOf body, Commits := commits, Meta := mta } := by
  simp only [finishBuild]
  rw [if_pos h]

theorem finishBuild_err (pfx mta : String) (commits : Int) (body : String)
    (hne : coreOf body ≠ "") (hbad : validCore (coreOf body) = false) :
    finishBuild pfx mta commits body = .err (coreError (coreOf body)) := by
  simp only [finishBuild, coreError]
  rw [if_neg hne]
  simp only [validCore] at hbad
  by_cases h3 : (goSplit (coreOf body) '.').length = 3
  · rw [if_neg (not_not_intro h3), if_neg (not_not_intro h3)]
    cases hp0 : goParseInt64 ((goSplit (coreOf body) '.').getD 0 "") with
    | none => simp [hp0]
    | some mj =>
      cases hp1 : goParseInt64 ((goSplit (coreOf body) '.').getD 1 "") with
      | none => simp [hp0, hp1]
      | some mn =>
        cases hp2 : goParseInt64 ((goSplit (coreOf body) '.').getD 2 "") with
        | none => simp [hp0, hp1, hp2]
        | some pa =>
          exfalso
          rw [h3, hp0, hp1, hp2] at hbad
          simp at hbad
  · rw [if_pos h3, if_pos h3]

theorem NewFromHead_safe (head : RepoHead)
    (hsafe : goContains (tagBody head) '+' = true ∨ ¬ 0 < head.CommitsSinceTag
      ∨ 8 ≤ head.Hash.length) :
    NewFromHead head = finishBuild (prefixValue head) (metaValue head)
      head.CommitsSinceTag (workingBody head) := by
  simp only [NewFromHead, prefixValue, metaValue, workingBody, tagBody] at *
  by_cases h1 : goContains (goTrimPrefix head.LastTag
      (if goHasPrefix head.LastTag DefaultPrefix then DefaultPrefix else "")) '+' = true
  · simp [h1]
  · by_cases h2 : 0 < head.CommitsSinceTag
    · have h8 : 8 ≤ head.Hash.length := by
        rcases hsafe with h | h | h
        · exact absurd h h1
        · exact absurd h2 h
        · exact h
      have h8n : ¬ head.Hash.length < 8 := Nat.not_lt.mpr h8
      simp [h1, h2, h8n]
    · simp [h1, h2]

theorem NewFromHead_panic_of (head : RepoHead)
    (h1 : goContains (tagBody head) '+' = false)
    (h2 : 0 < head.CommitsSinceTag)
    (h8 : head.Hash.length < 8) :
    NewFromHead head = .panic := by
  simp only [tagBody, prefixValue] at h1
  simp [NewFromHead, h1, h2, h8]

theorem NewFromHead_ok_fields (head : RepoHead) (v : Version)
    (hok : NewFromHead head = .ok v) :
    v.Prefix = prefixValue head ∧ v.Meta = metaValue head ∧
      v.Commits = head.CommitsSinceTag ∧ v.preRelease = preReleaseValue head := by
  by_cases h1 : goContains (tagBody head) '+' = true
  · rw [NewFromHead_safe head (Or.inl h1)] at hok
    exact finishBuild_ok_fields _ _ _ _ v hok
  · by_cases h2 : 0 < head.CommitsSinceTag
    · by_cases h8 : 8 ≤ head.Hash.length
      · rw [NewFromHead_safe head (Or.inr (Or.inr h8))] at hok
        exact finishBuild_ok_fields _ _ _ _ v hok
      · have hpanic := NewFromHead_panic_of head (by simp at h1; exact h1) h2
          (Nat.not_le.mp h8)
        rw [hpanic] at hok
        cases hok
    · rw [NewFromHead_safe head (Or.inr (Or.inl h2))] at hok
      exact finishBuild_ok_fields _ _ _ _ v hok

theorem mk_data_eq (s : String) : String.mk s.data = s := rfl

/-! The claims. -/

/-- C1 (corrected): the claim that every pattern outside the token grammar
(in particular "z.x") fails with the invalid-format error is refuted by
the counterexample below; the format regular expression is unanchored, so
any pattern containing an x matches.  Amended: Format fails with the
invalid-format error only when the pattern contains no x — a pattern with
extra, out-of-order or unknown tokens that still contains an x is never
rejected with the invalid-format error — and in particular on "z.x"
Format succeeds for every Version, rendering exactly the major component
of the first match, prefixed by the version prefix. -/
theorem c1_amended_format_zx (v : Version) (fmt : String) :
    (goContains fmt 'x' = true → v.Format fmt ≠ .error (.invalidFormat fmt))
    ∧ v.Format "z.x" = .ok (v.Prefix ++ FormatInt v.Major) := by
  constructor
  · intro hx herr
    cases hm : findMatch fmt with
    | none =>
      rw [findMatch_eq_none_iff] at hm
      rw [hm] at hx
      cases hx
    | some m =>
      unfold Version.Format at herr
      rw [hm] at herr
      exact formatWithMatch_ne_invalidFormat v m fmt herr
  · have hm : findMatch "z.x" = some ⟨false, false, false, false, false⟩ := by decide
    unfold Version.Format
    rw [hm]
    show formatWithMatch v ⟨false, false, false, false, false⟩ = _
    unfold formatWithMatch
    simp [bufAppendInt_nil_left, mk_data_eq]

/-- C1 witness: the junk pattern "z.x-r" contains an x, so even against a
Version whose pre-release "beta" makes its -r token fail, the failure is
not the invalid-format rejection the claim predicted. -/
theorem c1_witness :
    Version.Format vBeta "z.x-r" ≠ Except.error (.invalidFormat "z.x-r") :=
  (c1_amended_format_zx vBeta "z.x-r").1 (by decide)

/-- C1 counterexample: on the all-zero Version, Format of the out-of-order
pattern "z.x" succeeds with "0" instead of failing with the invalid-format
error as the claim states. -/
theorem c1_counterexample : Version.Format vZero "z.x" = .ok "0" := by decide

/-- C2 (corrected): the claim that Meta (resp. preRelease) receives
everything right of the first + (resp. -) is refuted by the
counterexample below: the source splits on every separator and keeps
`parts[1]` only.  Amended: Meta is the segment strictly between the first
+ and the following + (to the end when there is only one), and likewise
preRelease for -. -/
theorem c2_amended_split_segments (head : RepoHead) (v : Version)
    (hok : NewFromHead head = .ok v) :
    (goContains (tagBody head) '+' = true →
      v.Meta = String.mk ((((tagBody head).data.dropWhile fun c => c != '+').tail).takeWhile
        fun c => c != '+'))
    ∧ (goContains (workingBody head) '-' = true →
      v.preRelease = String.mk ((((workingBody head).data.dropWhile fun c => c != '-').tail).takeWhile
        fun c => c != '-')) := by
  obtain ⟨-, hMeta, -, hPre⟩ := NewFromHead_ok_fields head v hok
  constructor
  · intro hplus
    rw [hMeta]
    simp only [metaValue]
    rw [if_pos hplus, goSplit_getD_one]
  · intro hminus
    rw [hPre]
    simp only [preReleaseValue, preOf]
    rw [if_pos hminus, goSplit_getD_one]

/-- C2 witness: on the two-plus tag "1.2.3+a+b" the amended segment
description evaluates to the stored Meta. -/
theorem c2_witness :
    vW2.Meta = String.mk ((((tagBody headW2).data.dropWhile fun c => c != '+').tail).takeWhile
      fun c => c != '+') :=
  (c2_amended_split_segments headW2 vW2 (by decide)).1 (by decide)

/-- C2 counterexample: for the tag "1.2.3+a+b" the text right of the first
+ is "a+b", but the built Meta is only "a". -/
theorem c2_counterexample :
    NewFromHead headW2 = .ok vW2 ∧ vW2.Meta = "a" := by decide

/-- C3 (corrected): the claim that the bumped patch renders as Patch + 1
is refuted by the counterexample below: the source's patch++ is Go int64
arithmetic, which wraps, so at Patch = 2^63 - 1 the program renders
-2^63, not 2^63.  Amended: whenever the matched pattern contains the z
token, the rendered patch component is Patch incremented by 1 with 64-bit
wraparound exactly when Commits > 0 and preRelease is empty, and Patch
unchanged otherwise; it sits right after the major (and optional minor)
component in the output. -/
theorem c3_patch_bump (v : Version) (fmt : String) (m : FmtMatch)
    (hm : findMatch fmt = some m) (hp : m.patch = true)
    (s : String) (hs : v.Format fmt = .ok s) :
    ∃ tail : String,
      s = v.Prefix ++ FormatInt v.Major
        ++ (if m.minor then "." ++ FormatInt v.Minor else "")
        ++ "." ++ FormatInt (if 0 < v.Commits ∧ v.preRelease = "" then goInc64 v.Patch else v.Patch)
        ++ tail := by
  unfold Version.Format at hs
  rw [hm] at hs
  exact formatWithMatch_patch v m hp s hs

/-- C3 witness: the full format of the dev Version derived from
`headC8` renders patch 0 bumped to 1. -/
theorem c3_witness :
    ∃ tail : String,
      "1.0.1-dev.5+abcdef12" = vC8.Prefix ++ FormatInt vC8.Major
        ++ (if (⟨true, true, true, false, true⟩ : FmtMatch).minor then "." ++ FormatInt vC8.Minor else "")
        ++ "." ++ FormatInt (if 0 < vC8.Commits ∧ vC8.preRelease = "" then goInc64 vC8.Patch else vC8.Patch)
        ++ tail :=
  c3_patch_bump vC8 "x.y.z-p+m" ⟨true, true, true, false, true⟩ (by decide) rfl
    "1.0.1-dev.5+abcdef12" (by decide)

/-- C3 counterexample: the buildable tag "1.2.9223372036854775807" with
one commit since it formats to "1.2.-9223372036854775808" (the int64 wrap
of patch++), while Patch + 1 would render as "9223372036854775808". -/
theorem c3_counterexample :
    NewFromHead headMax = .ok vMax
    ∧ Version.Format vMax "x.y.z" = .ok "1.2.-9223372036854775808"
    ∧ FormatInt (vMax.Patch + 1) = "9223372036854775808" := by decide

/-- C4 (confirmed): PreRelease is total (it returns a plain String) and
returns preRelease unchanged when Commits = 0, "dev.n" when Commits > 0
with empty preRelease, and "pre.dev.n" when Commits > 0 with non-empty
preRelease. -/
theorem c4_preRelease_total (v : Version) :
    (v.Commits = 0 → v.PreRelease = v.preRelease)
    ∧ (0 < v.Commits → v.preRelease = "" → v.PreRelease = "dev." ++ FormatInt v.Commits)
    ∧ (0 < v.Commits → v.preRelease ≠ "" →
        v.PreRelease = v.preRelease ++ ".dev." ++ FormatInt v.Commits) := by
  refine ⟨?_, ?_, ?_⟩
  · intro h
    simp [Version.PreRelease, h]
  · intro h hp
    rw [Version.PreRelease, if_neg (by omega), if_pos hp]
  · intro h hp
    rw [Version.PreRelease, if_neg (by omega), if_neg hp]

/-- C4 witness: at the tagged rc.1 Version the pre-release is returned
unchanged. -/
theorem c4_witness : Version.PreRelease vW4 = "rc.1" :=
  (c4_preRelease_total vW4).1 rfl

/-- C5 (corrected): the claim that every preRelease matching
lowercase-letters dot digits succeeds is refuted by the counterexample
below (the embedded 64-bit ParseInt fails on a 19+-digit suffix).  Amended:
empty preRelease gives "rc.1"; a non-matching non-empty preRelease gives
the release-candidate format error; a matching one whose suffix parses as
an int64 value n succeeds with label.n, n incremented (with 64-bit wrap)
exactly when Commits > 0; a matching one whose suffix overflows int64
returns the ParseInt error. -/
theorem c5_amended_releaseCandidate (v : Version) :
    (v.preRelease = "" → v.ReleaseCandidate = .ok "rc.1")
    ∧ (v.preRelease ≠ "" → rcParse v.preRelease = none →
        v.ReleaseCandidate = .error .invalidPreRelease)
    ∧ (∀ label digits n, rcParse v.preRelease = some (label, digits) →
        goParseInt64 digits = some n →
        v.ReleaseCandidate = .ok (label ++ "." ++ FormatInt (if 0 < v.Commits then goInc64 n else n)))
    ∧ (∀ label digits, rcParse v.preRelease = some (label, digits) →
        goParseInt64 digits = none →
        v.ReleaseCandidate = .error (.parseIntErr digits)) := by
  have hne : ∀ label digits, rcParse v.preRelease = some (label, digits) → v.preRelease ≠ "" := by
    intro label digits h heq
    rw [heq] at h
    rw [show rcParse "" = none from rfl] at h
    cases h
  refine ⟨?_, ?_, ?_, ?_⟩
  · intro h
    simp [Version.ReleaseCandidate, h]
  · intro h hn
    simp only [Version.ReleaseCandidate]
    rw [if_neg h, hn]
  · intro label digits n hp hn
    simp only [Version.ReleaseCandidate]
    rw [if_neg (hne label digits hp), hp]
    simp only [hn]
  · intro label digits hp hn
    simp only [Version.ReleaseCandidate]
    rw [if_neg (hne label digits hp), hp]
    simp only [hn]

/-- C5 witness: one commit past rc.1, the release candidate is rc.2. -/
theorem c5_witness : Version.ReleaseCandidate vW5 = .ok "rc.2" := by
  rw [(c5_amended_releaseCandidate vW5).2.2.1 "rc" "1" 1 (by decide) (by decide)]
  decide

/-- C5 counterexample: "rc.9223372036854775808" matches the
release-candidate shape, yet ReleaseCandidate returns the ParseInt error
because the suffix exceeds the int64 range. -/
theorem c5_counterexample :
    rcParse "rc.9223372036854775808" = some ("rc", "9223372036854775808")
    ∧ Version.ReleaseCandidate { preRelease := "rc.9223372036854775808" } =
        .error (.parseIntErr "9223372036854775808") := by decide

/-- C6 (corrected): the claim that every head with a malformed non-empty
numeric core fails with the invalid-tag error is refuted by the
counterexample below, where the short-hash slice panics first.  Amended:
provided the hash slice is not reached out of range (the tag body has a +,
or CommitsSinceTag is not positive, or the hash has at least 8
characters), a non-empty numeric core that is not three parseable
dot-separated components makes the build fail with the error naming the
offending part. -/
theorem c6_amended_invalid_core (head : RepoHead)
    (hsafe : goContains (tagBody head) '+' = true ∨ ¬ 0 < head.CommitsSinceTag
      ∨ 8 ≤ head.Hash.length)
    (hne : numericCore head ≠ "")
    (hbad : validCore (numericCore head) = false) :
    NewFromHead head = .err (coreError (numericCore head)) := by
  rw [NewFromHead_safe head hsafe]
  exact finishBuild_err _ _ _ _ hne hbad

/-- C6 witness: the tagged two-component head "v1.2" fails with the
three-components error. -/
theorem c6_witness : NewFromHead headW6 = .err (coreError (numericCore headW6)) :=
  c6_amended_invalid_core headW6 (Or.inr (Or.inl (by decide))) (by decide) (by decide)

/-- C6 counterexample: with tag "v1.2", a 2-character hash, and one commit
since the tag, the numeric core "1.2" is malformed, yet the build panics
on the hash slice instead of returning the invalid-tag error. -/
theorem c6_counterexample :
    numericCore { LastTag := "v1.2", Hash := "ab", CommitsSinceTag := 1 } = "1.2"
    ∧ validCore "1.2" = false
    ∧ NewFromHead { LastTag := "v1.2", Hash := "ab", CommitsSinceTag := 1 } = .panic := by decide

/-- C7 (corrected): the claim that every head with an empty numeric core
(in particular every head with empty LastTag) builds successfully is
refuted by the counterexample below, where the short-hash slice panics.
Amended: provided the hash slice is not reached out of range, an empty
numeric core builds successfully with Major = Minor = Patch = 0, and an
empty LastTag moreover yields an empty Prefix. -/
theorem c7_amended_empty_core (head : RepoHead)
    (hsafe : goContains (tagBody head) '+' = true ∨ ¬ 0 < head.CommitsSinceTag
      ∨ 8 ≤ head.Hash.length)
    (hcore : numericCore head = "") :
    NewFromHead head =
      .ok { Prefix := prefixValue head, Major := 0, Minor := 0, Patch := 0,
            preRelease := preReleaseValue head, Commits := head.CommitsSinceTag,
            Meta := metaValue head }
    ∧ (head.LastTag = "" → prefixValue head = "") := by
  constructor
  · rw [NewFromHead_safe head hsafe]
    exact finishBuild_empty _ _ _ _ hcore
  · intro h
    simp only [prefixValue, h]
    decide

/-- C7 witness: the untagged head with a full hash and no commits builds
to the all-zero version with empty prefix. -/
theorem c7_witness :
    NewFromHead headW7 =
      .ok { Prefix := prefixValue headW7, Major := 0, Minor := 0, Patch := 0,
            preRelease := preReleaseValue headW7, Commits := headW7.CommitsSinceTag,
            Meta := metaValue headW7 } :=
  (c7_amended_empty_core headW7 (Or.inr (Or.inl (by decide))) (by decide)).1

/-- C7 counterexample: an empty LastTag with an empty hash and one commit
since the tag panics instead of building the all-zero version. -/
theorem c7_counterexample :
    numericCore { LastTag := "", Hash := "", CommitsSinceTag := 1 } = ""
    ∧ NewFromHead { LastTag := "", Hash := "", CommitsSinceTag := 1 } = .panic := by decide

/-- C8 (confirmed): for LastTag "1.0.0", hash "abcdef1234567890" and 5
commits, the build stores Meta "abcdef12" and the full format renders
"1.0.1-dev.5+abcdef12". -/
theorem c8_concrete_build_format :
    NewFromHead headC8 = .ok vC8
    ∧ vC8.Meta = "abcdef12"
    ∧ Version.Format vC8 FullFormat = .ok "1.0.1-dev.5+abcdef12" := by decide

/-- C9 (corrected): the claim that the hash slice never aborts is refuted
by the counterexample below.  Amended: with no + in the tag body and a positive
commit count, a hash of at least 8 characters yields Meta equal to its
first 8 characters on every successful build, while a shorter hash makes
the build panic on the out-of-range slice. -/
theorem c9_amended_meta_hash (head : RepoHead)
    (hplus : goContains (tagBody head) '+' = false)
    (hc : 0 < head.CommitsSinceTag) :
    (8 ≤ head.Hash.length →
      ∀ v, NewFromHead head = .ok v → v.Meta = String.mk (head.Hash.data.take 8))
    ∧ (head.Hash.length < 8 → NewFromHead head = .panic) := by
  constructor
  · intro h8 v hok
    have hMeta := (NewFromHead_ok_fields head v hok).2.1
    rw [hMeta]
    simp only [metaValue]
    rw [if_neg (by simp [hplus]), if_pos hc]
  · intro hlt
    exact NewFromHead_panic_of head hplus hc hlt

/-- C9 witness: the build from `headC8` stores the first 8 hash
characters as metadata. -/
theorem c9_witness : vC8.Meta = String.mk (headC8.Hash.data.take 8) :=
  (c9_amended_meta_hash headC8 (by decide) (by decide)).1 (by decide) vC8 (by decide)

/-- C9 counterexample: a 3-character hash with one commit since the tag
makes the build panic instead of returning successfully. -/
theorem c9_counterexample :
    NewFromHead { LastTag := "1.0.0", Hash := "abc", CommitsSinceTag := 1 } = .panic := by decide

/-- C10 (corrected): the claim that Format succeeds on every pattern
containing an x is refuted by the counterexample below (the -r token can
fail on a malformed pre-release).  Amended: Format returns the invalid-format
error exactly when the pattern contains no x; when it does contain one,
Format renders the first grammar match, and succeeds whenever that match
does not include the -r token. -/
theorem c10_amended_x_match (v : Version) (fmt : String) :
    (v.Format fmt = .error (.invalidFormat fmt) ↔ goContains fmt 'x' = false)
    ∧ (goContains fmt 'x' = true →
        ∃ m, findMatch fmt = some m ∧ v.Format fmt = formatWithMatch v m
          ∧ (m.rc = false → ∃ s, v.Format fmt = .ok s)) := by
  constructor
  · constructor
    · intro herr
      cases hm : findMatch fmt with
      | none => exact (findMatch_eq_none_iff fmt).mp hm
      | some m =>
        exfalso
        unfold Version.Format at herr
        rw [hm] at herr
        exact formatWithMatch_ne_invalidFormat v m fmt herr
    · intro hnone
      have h := (findMatch_eq_none_iff fmt).mpr hnone
      unfold Version.Format
      rw [h]
  · intro hx
    cases hm : findMatch fmt with
    | none =>
      rw [findMatch_eq_none_iff] at hm
      rw [hm] at hx
      cases hx
    | some m =>
      refine ⟨m, rfl, ?_, ?_⟩
      · unfold Version.Format
        rw [hm]
      · intro hrc
        obtain ⟨s, hsok⟩ := formatWithMatch_rc_false_ok v m hrc
        refine ⟨s, ?_⟩
        unfold Version.Format
        rw [hm]
        exact hsok

/-- C10 witness: "x" contains an x and its match has no -r token, so
Format succeeds on it. -/
theorem c10_witness : ∃ s, Version.Format vC8 "x" = Except.ok s := by
  obtain ⟨m, hm, he, hok⟩ := (c10_amended_x_match vC8 "x").2 (by decide)
  have hm0 : findMatch "x" = some ⟨false, false, false, false, false⟩ := by decide
  rw [hm0] at hm
  have hme := Option.some.inj hm
  exact hok (by rw [← hme])

/-- C10 counterexample: "x-r" contains an x, yet Format fails on it for a
Version whose pre-release "beta" does not fit the release-candidate
shape. -/
theorem c10_counterexample :
    goContains "x-r" 'x' = true
    ∧ Version.Format vBeta "x-r" = .error .invalidPreRelease := by decide

end GitSemver
